import Mathlib

/- Verification of the claude-sandbox privileged proxies (gh_proxy.rs and
   clipboard_proxy.rs), as a shallow embedding: pure Rust functions become
   Lean functions, and the effectful parts (spawning git / gh, reading the
   directory) are parameterised by explicit oracles (World, directory
   listings).  Logging is a pure side channel and is omitted. -/

namespace ClaudeSandbox

/- ── String helpers modelling Rust str operations ─────────────────────
   Rust strings are UTF-8 byte sequences; all patterns used by the code
   are ASCII, so byte-level starts_with / find are faithfully modelled at
   the char level. -/

/-- Rust str::starts_with. -/
def strStartsWith (s p : String) : Bool := p.data.isPrefixOf s.data

/-- Rust slice join(sep). -/
def join_sep (sep : String) : List String → String
  | [] => ""
  | [a] => a
  | a :: rest => a ++ sep ++ join_sep sep rest

/-- Rust format width-12 left-aligned padding. -/
def pad12 (s : String) : String := s ++ String.mk (List.replicate (12 - s.length) ' ')

/-- Rust str::strip_prefix. -/
def strip_pre (p s : String) : Option String :=
  if p.data.isPrefixOf s.data then some (String.mk (s.data.drop p.data.length)) else none

/-- Rust str::trim: drop leading and trailing whitespace (the URLs involved
    only ever carry ASCII whitespace, so the core whitespace predicate is a
    faithful model of char::is_whitespace here). -/
def str_trim (s : String) : String :=
  String.mk (((s.data.dropWhile Char.isWhitespace).reverse.dropWhile
    Char.isWhitespace).reverse)

/-- Repeatedly remove a trailing ".git", as Rust trim_end_matches(".git")
    does.  Structural recursion on a fuel that bounds the iteration count:
    every strip removes four characters, so the initial length is always
    enough fuel and the fuel never runs out before the suffix test fails. -/
def trim_git_fuel : Nat → List Char → List Char
  | 0, l => l
  | fuel + 1, l =>
    if ([ '.', 'g', 'i', 't' ] : List Char).isSuffixOf l then
      trim_git_fuel fuel (l.take (l.length - 4))
    else l

def trim_git (l : List Char) : List Char := trim_git_fuel l.length l

def trim_end_git (s : String) : String := String.mk (trim_git s.data)

/- ── gh_proxy.rs data model ──────────────────────────────────────────── -/

/-- Response sent back over the socket (gh_proxy.rs). -/
structure Response where
  exit_code : Int
  stdout : String
  stderr : String
deriving DecidableEq

/-- Oracles for the effectful operations of gh_proxy.rs:
    git_remote_stdout is the stdout of git remote get-url origin (none when
    the spawn or UTF-8 decode fails); gh_output is the result of spawning
    the real gh binary on an argument vector (error e = spawn failure with
    message e; ok (code, out, err) = the process ran, where code = none
    models termination without an exit code, mapped to 1 by unwrap_or). -/
structure World where
  git_remote_stdout : Option String
  gh_output : List String → Except String (Option Int × String × String)

/-- One entry of the compiled-in policy table (CommandDef in gh_proxy.rs). -/
structure CommandDef where
  group : String
  subcommand : String
  is_write : Bool
  allowed_flags : List String
deriving DecidableEq

/-- The compiled-in policy registry COMMANDS, transcribed from gh_proxy.rs. -/
def COMMANDS : List CommandDef := [
  -- read commands
  { group := "pr", subcommand := "list", is_write := false,
    allowed_flags := ["--state", "-s", "--limit", "-L", "--json", "--jq", "-q",
      "--label", "-l", "--author", "-A", "--assignee", "-a", "--base", "-B",
      "--head", "-H", "--search", "-S", "--draft", "-d", "--template", "-t",
      "--web", "-w", "--repo", "-R", "--app"] },
  { group := "pr", subcommand := "view", is_write := false,
    allowed_flags := ["--json", "--jq", "-q", "--comments", "-c", "--template",
      "-t", "--web", "-w", "--repo", "-R"] },
  { group := "pr", subcommand := "diff", is_write := false,
    allowed_flags := ["--color", "--patch", "--name-only", "--repo", "-R"] },
  { group := "pr", subcommand := "checks", is_write := false,
    allowed_flags := ["--json", "--jq", "-q", "--watch", "--interval", "-i",
      "--fail-fast", "--required", "--web", "-w", "--repo", "-R"] },
  { group := "issue", subcommand := "list", is_write := false,
    allowed_flags := ["--state", "-s", "--limit", "-L", "--json", "--jq", "-q",
      "--label", "-l", "--author", "-A", "--assignee", "-a", "--milestone",
      "-m", "--search", "-S", "--template", "-t", "--web", "-w", "--repo", "-R"] },
  { group := "issue", subcommand := "view", is_write := false,
    allowed_flags := ["--json", "--jq", "-q", "--comments", "-c", "--template",
      "-t", "--web", "-w", "--repo", "-R"] },
  { group := "repo", subcommand := "view", is_write := false,
    allowed_flags := ["--json", "--jq", "-q", "--template", "-t", "--web",
      "-w", "--repo", "-R"] },
  { group := "release", subcommand := "list", is_write := false,
    allowed_flags := ["--limit", "-L", "--json", "--jq", "-q",
      "--exclude-drafts", "--exclude-pre-releases", "--order", "-O",
      "--repo", "-R"] },
  { group := "release", subcommand := "view", is_write := false,
    allowed_flags := ["--json", "--jq", "-q", "--template", "-t", "--web",
      "-w", "--repo", "-R"] },
  { group := "run", subcommand := "list", is_write := false,
    allowed_flags := ["--limit", "-L", "--json", "--jq", "-q", "--branch",
      "-b", "--workflow", "-w", "--status", "-s", "--event", "-e", "--user",
      "-u", "--commit", "-c", "--repo", "-R"] },
  { group := "run", subcommand := "view", is_write := false,
    allowed_flags := ["--json", "--jq", "-q", "--log", "--log-failed",
      "--exit-status", "--verbose", "-v", "--web", "-w", "--job", "-j",
      "--attempt", "--repo", "-R"] },
  -- write commands (no --repo/-R, no --body-file/-F)
  { group := "pr", subcommand := "create", is_write := true,
    allowed_flags := ["--title", "-t", "--body", "-b", "--base", "-B",
      "--head", "-H", "--draft", "-d", "--label", "-l", "--assignee", "-a",
      "--reviewer", "-r", "--milestone", "-m", "--fill", "-f", "--fill-first",
      "--fill-verbose", "--web", "-w", "--template", "-T",
      "--no-maintainer-edit"] },
  { group := "pr", subcommand := "comment", is_write := true,
    allowed_flags := ["--body", "-b", "--edit-last", "--web", "-w"] },
  { group := "issue", subcommand := "create", is_write := true,
    allowed_flags := ["--title", "-t", "--body", "-b", "--label", "-l",
      "--assignee", "-a", "--milestone", "-m", "--project", "-p", "--web",
      "-w", "--template", "-T"] },
  { group := "issue", subcommand := "comment", is_write := true,
    allowed_flags := ["--body", "-b", "--edit-last", "--web", "-w"] }
]

/-- detect_repo in gh_proxy.rs: parse the workspace repo slug from the git
    remote url (the process-lifetime OnceLock cache is invisible in a pure
    model). -/
def detect_repo (w : World) : Option String :=
  match w.git_remote_stdout with
  | none => none
  | some out =>
    let url := str_trim out
    match strip_pre "git@github.com:" url with
    | some rest => some (trim_end_git rest)
    | none =>
      match (strip_pre "https://github.com/" url).orElse
              (fun _ => strip_pre "http://github.com/" url) with
      | some rest => some (trim_end_git rest)
      | none => none

/-- handle_run_logs in gh_proxy.rs. -/
def handle_run_logs (w : World) (args : List String) : Response :=
  match args with
  | [] => ⟨1, "", "gh-proxy: usage: gh ext run-logs <run-id>"⟩
  | run_id :: _ =>
    if !(run_id.data.all (fun c => c.isDigit)) then
      ⟨1, "", "gh-proxy: invalid run id: " ++ run_id⟩
    else
      match detect_repo w with
      | none => ⟨1, "", "gh-proxy: could not detect repository from git remote"⟩
      | some repo =>
        let api_path := "/repos/" ++ repo ++ "/actions/runs/" ++ run_id ++ "/logs"
        match w.gh_output ["api", api_path] with
        | .ok (code, out, err) => ⟨code.getD 1, out, err⟩
        | .error e => ⟨1, "", "gh-proxy: failed to execute gh api: " ++ e⟩

/-- One entry of the extension pseudo-command table (ExtCommandDef). -/
structure ExtCommandDef where
  group : String
  subcommand : String
  description : String
  help_text : String
  handler : World → List String → Response

/-- The single run-logs row of the extension table. -/
def run_logs_ext : ExtCommandDef :=
  { group := "ext", subcommand := "run-logs",
    description := "Download workflow run logs",
    help_text := "gh ext run-logs <run-id> (workspace repo only)\n\nDownload workflow run logs for the current repository.\nTranslates to: gh api /repos/\x7bowner\x7d/\x7brepo\x7d/actions/runs/\x7brun-id\x7d/logs\n",
    handler := handle_run_logs }

/-- EXT_COMMANDS in gh_proxy.rs. -/
def EXT_COMMANDS : List ExtCommandDef := [run_logs_ext]

def find_ext_command (group subcommand : String) : Option ExtCommandDef :=
  EXT_COMMANDS.find? (fun c => c.group == group && c.subcommand == subcommand)

def find_command (group subcommand : String) : Option CommandDef :=
  COMMANDS.find? (fun c => c.group == group && c.subcommand == subcommand)

/-- extract_flag in gh_proxy.rs: truncate a long flag at the first equals
    sign; anything else is returned unchanged. -/
def extract_flag (arg : String) : String :=
  if strStartsWith arg "--" then String.mk (arg.data.takeWhile (fun c => c != '=')) else arg

/-- The scanning loop of check_flags: pastSep is the past_separator flag;
    the result some f is the Err(f) early return, none is Ok(()). -/
def check_flags_go (allowed : List String) (pastSep : Bool) : List String → Option String
  | [] => none
  | arg :: rest =>
    if pastSep then check_flags_go allowed pastSep rest
    else if arg = "--" then check_flags_go allowed true rest
    else if strStartsWith arg "-" then
      let flag := extract_flag arg
      if allowed.contains flag then check_flags_go allowed pastSep rest
      else some flag
    else check_flags_go allowed pastSep rest

/-- check_flags in gh_proxy.rs: scan args[2..] against the allowlist. -/
def check_flags (args : List String) (allowed : List String) : Option String :=
  check_flags_go allowed false (args.drop 2)

def is_help_flag (arg : String) : Bool := arg == "-h" || arg == "--help"

/-- The index loop of format_flags, with the used index set as a list. -/
def format_flags_go (flags : List String) (i : Nat) (used : List Nat) : List String :=
  if i < flags.length then
    let flag := flags.getD i ""
    if used.contains i then format_flags_go flags (i + 1) used
    else if strStartsWith flag "--" then
      if 0 < i && !(used.contains (i - 1))
          && strStartsWith (flags.getD (i - 1) "") "-"
          && !(strStartsWith (flags.getD (i - 1) "") "--") then
        ("  " ++ flags.getD (i - 1) "" ++ ", " ++ flag)
          :: format_flags_go flags (i + 1) ((i - 1) :: i :: used)
      else ("      " ++ flag) :: format_flags_go flags (i + 1) (i :: used)
    else if strStartsWith flag "-" && !(strStartsWith flag "--") then
      if i + 1 < flags.length && strStartsWith (flags.getD (i + 1) "") "--" then
        format_flags_go flags (i + 1) used
      else ("  " ++ flag) :: format_flags_go flags (i + 1) (i :: used)
    else format_flags_go flags (i + 1) used
  else []
termination_by flags.length - i

/-- format_flags in gh_proxy.rs. -/
def format_flags (flags : List String) : List String := format_flags_go flags 0 []

/-- The dedup-preserving-order group collection loops of help_toplevel. -/
def push_unique (groups : List String) (g : String) : List String :=
  if groups.contains g then groups else groups ++ [g]

def help_toplevel : String :=
  let groups := (EXT_COMMANDS.map (fun e => e.group)).foldl push_unique
    ((COMMANDS.map (fun c => c.group)).foldl push_unique [])
  "gh - GitHub CLI (proxy, restricted subset)\n\nAvailable command groups:\n"
  ++ String.join (groups.map (fun group =>
       let subs := (COMMANDS.filter (fun c => c.group == group)).map
           (fun c => c.subcommand)
         ++ (EXT_COMMANDS.filter (fun c => c.group == group)).map
           (fun c => c.subcommand)
       "  " ++ pad12 group ++ " " ++ join_sep ", " subs ++ "\n"))
  ++ "\nRun \x27gh <command> -h\x27 for more information about a command.\n"
  ++ "Note: This is a sandboxed proxy. Only the commands listed above are available.\n"

def help_group (group : String) : Option String :=
  let cmds := COMMANDS.filter (fun c => c.group == group)
  let exts := EXT_COMMANDS.filter (fun c => c.group == group)
  if cmds.isEmpty && exts.isEmpty then none
  else some (
    "gh " ++ group ++ " - available subcommands:\n\n"
    ++ String.join (cmds.map (fun c =>
         "  " ++ pad12 c.subcommand ++ (if c.is_write then " (write)" else "") ++ "\n"))
    ++ String.join (exts.map (fun e =>
         "  " ++ pad12 e.subcommand ++ " " ++ e.description ++ "\n"))
    ++ "\nRun \x27gh " ++ group ++ " <subcommand> -h\x27 for more information.\n")

def help_command (group subcommand : String) : Option String :=
  match find_ext_command group subcommand with
  | some ext => some ext.help_text
  | none =>
    match find_command group subcommand with
    | none => none
    | some cmd =>
      let rw := if cmd.is_write then " (write — workspace repo only, no -R/--repo)"
                else " (read)"
      some ("gh " ++ group ++ " " ++ subcommand ++ rw ++ "\n\nAllowed flags:\n"
        ++ String.join ((format_flags cmd.allowed_flags).map (fun line => line ++ "\n")))

/-- maybe_help in gh_proxy.rs, with its early returns as an ite chain. -/
def maybe_help (args : List String) : Option String :=
  if args.length = 0 then some help_toplevel
  else if args.length = 1 ∧ (is_help_flag (args.getD 0 "") = true ∨ args.getD 0 "" = "help") then
    some help_toplevel
  else if args.getD 0 "" = "help" ∧ args.length = 2 then
    (help_group (args.getD 1 "")).orElse (fun _ => some help_toplevel)
  else if args.getD 0 "" = "help" ∧ 3 ≤ args.length then
    (help_command (args.getD 1 "") (args.getD 2 "")).orElse
      (fun _ => help_group (args.getD 1 ""))
  else if args.length = 2 ∧ is_help_flag (args.getD 1 "") = true then
    (help_group (args.getD 0 "")).orElse (fun _ => some help_toplevel)
  else if 2 ≤ args.length ∧ (args.drop 2).any is_help_flag = true then
    help_command (args.getD 0 "") (args.getD 1 "")
  else none

/-- reject_reason in gh_proxy.rs. -/
def reject_reason : List String → Option String
  | [] => some ("command not allowed: gh " ++ join_sep " " ([] : List String))
  | [a] => some ("command not allowed: gh " ++ join_sep " " [a])
  | group :: subcommand :: rest =>
    match find_command group subcommand with
    | none => some ("command not allowed: gh " ++ group ++ " " ++ subcommand)
    | some cmd =>
      match check_flags (group :: subcommand :: rest) cmd.allowed_flags with
      | some flag =>
        some ("flag not allowed for gh " ++ group ++ " " ++ subcommand ++ ": " ++ flag)
      | none => none

/-- maybe_ext_command in gh_proxy.rs. -/
def maybe_ext_command (w : World) (args : List String) : Option Response :=
  match args with
  | a0 :: a1 :: rest =>
    match find_ext_command a0 a1 with
    | some ext => some (ext.handler w rest)
    | none => none
  | _ => none

/-- handle_request in gh_proxy.rs (log lines omitted). -/
def handle_request (w : World) (args : List String) : Response :=
  match maybe_help args with
  | some help_text => ⟨0, help_text, ""⟩
  | none =>
    match maybe_ext_command w args with
    | some response => response
    | none =>
      match reject_reason args with
      | some reason => ⟨1, "", "gh-proxy: " ++ reason⟩
      | none =>
        match w.gh_output args with
        | .ok (code, out, err) => ⟨code.getD 1, out, err⟩
        | .error e => ⟨1, "", "gh-proxy: failed to execute gh: " ++ e⟩

/- ── clipboard_proxy.rs data model ───────────────────────────────────── -/

/-- MAX_AGE_SECS in clipboard_proxy.rs. -/
def MAX_AGE_SECS : Nat := 120

/-- Duration::MAX in whole seconds (u64::MAX; the extra 999999999 nanoseconds
    are irrelevant because the value is only ever compared against the
    120-second window). -/
def DUR_MAX : Nat := 18446744073709551615

/-- now.duration_since(mtime).unwrap_or(Duration::MAX), in whole seconds:
    duration_since errors when the mtime is in the future. -/
def age_secs (now mtime : Nat) : Nat :=
  if mtime ≤ now then now - mtime else DUR_MAX

/-- One directory entry as observed by find_newest_screenshot: isFile is
    path.is_file(); mtime is the modification time in seconds (none when the
    metadata or the modified time is unreadable); content is what fs::read
    of the path would give (error = the OS error text).  Entries whose
    read_dir item itself errored are skipped by .flatten() and simply do not
    appear in the list. -/
structure DirEntry where
  path : String
  isFile : Bool
  mtime : Option Nat
  content : Except String (List Nat)

/-- The condition under which the loop body considers an entry at all:
    a regular file, readable mtime, and age not beyond the window. -/
def qualifies (now : Nat) (e : DirEntry) : Bool :=
  e.isFile && (match e.mtime with
    | some t => !(decide (MAX_AGE_SECS < age_secs now t))
    | none => false)

/-- newest.as_ref().map_or(true, fun (best, _) => mtime > best). -/
def better_than (t : Nat) : Option (Nat × DirEntry) → Bool
  | none => true
  | some (b, _) => decide (b < t)

/-- The scanning loop of find_newest_screenshot, with the newest candidate
    as an accumulator. -/
def scan_go (now : Nat) (best : Option (Nat × DirEntry)) :
    List DirEntry → Option (Nat × DirEntry)
  | [] => best
  | e :: rest =>
    if e.isFile = false then scan_go now best rest
    else
      match e.mtime with
      | none => scan_go now best rest
      | some t =>
        if MAX_AGE_SECS < age_secs now t then scan_go now best rest
        else if better_than t best then scan_go now (some (t, e)) rest
        else scan_go now best rest

/-- find_newest_screenshot in clipboard_proxy.rs, over an abstract directory
    listing (error = the fs::read_dir failure text). -/
def find_newest_screenshot (dir : String) (now : Nat)
    (listing : Except String (List DirEntry)) : Except String (List Nat) :=
  match listing with
  | .error e => .error ("cannot read " ++ dir ++ ": " ++ e)
  | .ok entries =>
    match scan_go now none entries with
    | none => .error ("no screenshot younger than " ++ toString MAX_AGE_SECS ++ "s in " ++ dir)
    | some (_, e) =>
      match e.content with
      | .ok bytes => .ok bytes
      | .error err => .error ("failed to read " ++ e.path ++ ": " ++ err)

/-- The value inside a qualifying entry mtime. -/
def mtimeVal (e : DirEntry) : Nat := e.mtime.getD 0

/- ── helper lemmas: strings ──────────────────────────────────────────── -/

lemma mk_data (s : String) : String.mk s.data = s := by cases s; rfl

lemma sdata_append (a b : String) : (a ++ b).data = a.data ++ b.data := by
  cases a; cases b; rfl

lemma strStartsWith_dash_iff (f : String) :
    strStartsWith f "-" = true ↔ ∃ t, f.data = '-' :: t := by
  have hd : ("-" : String).data = ['-'] := rfl
  unfold strStartsWith
  rw [hd]
  cases hf : f.data with
  | nil => simp [List.isPrefixOf]
  | cons a t =>
    simp only [List.isPrefixOf, Bool.and_true, beq_iff_eq]
    constructor
    · intro h; exact ⟨t, by rw [h]⟩
    · rintro ⟨t', ht'⟩
      cases ht'
      rfl

lemma strStartsWith_ddash_iff (f : String) :
    strStartsWith f "--" = true ↔ ∃ t, f.data = '-' :: '-' :: t := by
  have hd : ("--" : String).data = ['-', '-'] := rfl
  unfold strStartsWith
  rw [hd]
  cases hf : f.data with
  | nil => simp [List.isPrefixOf]
  | cons a t =>
    cases t with
    | nil => simp [List.isPrefixOf]
    | cons b t' =>
      simp only [List.isPrefixOf, Bool.and_true, Bool.and_eq_true, beq_iff_eq]
      constructor
      · rintro ⟨h1, h2⟩; exact ⟨t', by rw [← h1, ← h2]⟩
      · rintro ⟨t'', ht''⟩
        cases ht''
        exact ⟨rfl, rfl⟩

lemma takeWhile_append_stop {l v : List Char} (h : l.all (fun c => c != '=') = true) :
    (l ++ '=' :: v).takeWhile (fun c => c != '=') = l := by
  induction l with
  | nil => simp
  | cons a t ih =>
    simp only [List.all_cons, Bool.and_eq_true] at h
    simp [List.takeWhile_cons, h.1, ih h.2]

lemma takeWhile_all_eq {l : List Char} (h : l.all (fun c => c != '=') = true) :
    l.takeWhile (fun c => c != '=') = l := by
  induction l with
  | nil => rfl
  | cons a t ih =>
    simp only [List.all_cons, Bool.and_eq_true] at h
    simp [List.takeWhile_cons, h.1, ih h.2]

/- ── helper lemmas: the flag scanner ─────────────────────────────────── -/

lemma check_flags_go_past (allowed : List String) :
    ∀ l, check_flags_go allowed true l = none := by
  intro l
  induction l with
  | nil => rfl
  | cons a t ih => simpa [check_flags_go] using ih

lemma check_flags_go_sep (allowed : List String) (post : List String) :
    ∀ pre, check_flags_go allowed false (pre ++ "--" :: post) =
      check_flags_go allowed false (pre ++ ["--"]) := by
  intro pre
  induction pre with
  | nil =>
    simp [check_flags_go, check_flags_go_past]
  | cons a t ih =>
    by_cases ha : a = "--"
    · subst ha
      simp [check_flags_go, check_flags_go_past]
    · by_cases hd : strStartsWith a "-" = true
      · by_cases hc : extract_flag a ∈ allowed
        · simpa [check_flags_go, ha, hd, hc] using ih
        · simp [check_flags_go, ha, hd, hc]
      · simpa [check_flags_go, ha, hd] using ih

lemma check_flags_go_some (allowed : List String) :
    ∀ (l : List String) (f : String), check_flags_go allowed false l = some f →
      ∃ p tok q, l = p ++ tok :: q ∧ "--" ∉ p ∧ strStartsWith tok "-" = true ∧
        extract_flag tok = f ∧ allowed.contains f = false := by
  intro l
  induction l with
  | nil => intro f h; simp [check_flags_go] at h
  | cons a t ih =>
    intro f h
    by_cases ha : a = "--"
    · subst ha
      have : check_flags_go allowed true t = some f := by
        simpa [check_flags_go] using h
      rw [check_flags_go_past] at this
      exact absurd this (by simp)
    · by_cases hd : strStartsWith a "-" = true
      · by_cases hc : extract_flag a ∈ allowed
        · have h' : check_flags_go allowed false t = some f := by
            simpa [check_flags_go, ha, hd, hc] using h
          obtain ⟨p, tok, q, hl, hp, hdash, hex, hcon⟩ := ih f h'
          refine ⟨a :: p, tok, q, by rw [hl]; rfl, ?_, hdash, hex, hcon⟩
          simp only [List.mem_cons, not_or]
          exact ⟨fun hcontra => ha hcontra.symm, hp⟩
        · have h' : some (extract_flag a) = some f := by
            simpa [check_flags_go, ha, hd, hc] using h
          have hf : extract_flag a = f := by injection h'
          refine ⟨[], a, t, rfl, by simp, hd, hf, ?_⟩
          rw [← hf]
          simpa using hc
      · have h' : check_flags_go allowed false t = some f := by
          simpa [check_flags_go, ha, hd] using h
        obtain ⟨p, tok, q, hl, hp, hdash, hex, hcon⟩ := ih f h'
        refine ⟨a :: p, tok, q, by rw [hl]; rfl, ?_, hdash, hex, hcon⟩
        simp only [List.mem_cons, not_or]
        exact ⟨fun hcontra => ha hcontra.symm, hp⟩

lemma check_flags_go_denies (allowed : List String) (f : String)
    (hf1 : f ≠ "--") (hf2 : strStartsWith f "-" = true)
    (hf3 : extract_flag f ∉ allowed) :
    ∀ (pre : List String), "--" ∉ pre → ∀ post,
      (check_flags_go allowed false (pre ++ f :: post)).isSome = true := by
  intro pre
  induction pre with
  | nil =>
    intro _ post
    simp [check_flags_go, hf1, hf2, hf3]
  | cons a t ih =>
    intro hpre post
    have ha : ¬(a = "--") := by
      intro h
      exact hpre (by simp [h])
    have ht : "--" ∉ t := fun h => hpre (List.mem_cons_of_mem a h)
    by_cases hd : strStartsWith a "-" = true
    · by_cases hc : extract_flag a ∈ allowed
      · simpa [check_flags_go, ha, hd, hc] using ih ht post
      · simp [check_flags_go, ha, hd, hc]
    · simpa [check_flags_go, ha, hd] using ih ht post

lemma reject_reason_cons (g sc : String) (rest : List String) (cmd : CommandDef)
    (hfind : find_command g sc = some cmd) :
    reject_reason (g :: sc :: rest) =
      match check_flags_go cmd.allowed_flags false rest with
      | some flag =>
        some ("flag not allowed for gh " ++ g ++ " " ++ sc ++ ": " ++ flag)
      | none => none := by
  simp [reject_reason, hfind, check_flags]

lemma find_command_mem {g sc : String} {cmd : CommandDef}
    (h : find_command g sc = some cmd) : cmd ∈ COMMANDS :=
  List.mem_of_find?_eq_some h

/-- The four repository-override / read-body-from-file flags are absent from
    every write-command allowlist (checked over the whole registry). -/
lemma write_no_override : ∀ cmd ∈ COMMANDS, cmd.is_write = true →
    ∀ f ∈ (["--repo", "-R", "--body-file", "-F"] : List String),
      cmd.allowed_flags.contains f = false := by decide

/-- Shape facts about the four blocked flags. -/
lemma four_flags_shape : ∀ f ∈ (["--repo", "-R", "--body-file", "-F"] : List String),
    f ≠ "--" ∧ strStartsWith f "-" = true ∧ extract_flag f = f := by decide

/- ── concrete worlds used by witnesses ───────────────────────────────── -/

/-- A world where the git remote resolves and gh always succeeds. -/
def wOK : World := ⟨some "git@github.com:o/r\n", fun _ => .ok (some 0, "LOGS", "")⟩

/-- A world where git gives nothing and gh cannot be spawned. -/
def wFail : World := ⟨none, fun _ => .error "spawn failed"⟩

/-- A world where gh runs and exits with code 3. -/
def wExit3 : World := ⟨none, fun _ => .ok (some 3, "out", "err")⟩

/- ── claims about gh_proxy.rs ────────────────────────────────────────── -/

/-- C1: every read command in the registry allows both repository-override
    flags --repo and -R; every write command allows none of --repo, -R,
    --body-file, -F; and consequently, for every registered write
    (group, subcommand), an argument vector supplying any of those four
    flags before a literal -- separator is denied by validation. -/
theorem C1_registry_invariant :
    (∀ cmd ∈ COMMANDS,
       (cmd.is_write = false →
          cmd.allowed_flags.contains "--repo" = true ∧
          cmd.allowed_flags.contains "-R" = true) ∧
       (cmd.is_write = true →
          ∀ f ∈ (["--repo", "-R", "--body-file", "-F"] : List String),
            cmd.allowed_flags.contains f = false)) ∧
    (∀ (g sc : String) (cmd : CommandDef), find_command g sc = some cmd →
       cmd.is_write = true →
       ∀ (pre post : List String) (f : String),
         f ∈ (["--repo", "-R", "--body-file", "-F"] : List String) →
         "--" ∉ pre →
         (reject_reason (g :: sc :: (pre ++ f :: post))).isSome = true) := by
  constructor
  · decide
  · intro g sc cmd hfind hw pre post f hf hpre
    have hmem := find_command_mem hfind
    have hcon : cmd.allowed_flags.contains f = false :=
      write_no_override cmd hmem hw f hf
    obtain ⟨hne, hdash, hex⟩ := four_flags_shape f hf
    have hnotin : extract_flag f ∉ cmd.allowed_flags := by
      rw [hex]
      simpa using hcon
    have hden := check_flags_go_denies cmd.allowed_flags f hne hdash hnotin pre hpre post
    rw [reject_reason_cons g sc _ cmd hfind]
    obtain ⟨x, hx⟩ := Option.isSome_iff_exists.mp hden
    rw [hx]
    rfl

/-- Witness for C1: gh pr create --repo x/y is denied. -/
theorem C1_registry_invariant_witness :
    (reject_reason ["pr", "create", "--repo", "x/y"]).isSome = true := by
  cases hfind : find_command "pr" "create" with
  | none => exact absurd hfind (by decide)
  | some cmd =>
    have hw : cmd.is_write = true := by
      have h2 : (find_command "pr" "create").map (fun c => c.is_write) = some true := by
        decide
      rw [hfind] at h2
      simpa using h2
    have h := C1_registry_invariant.2 "pr" "create" cmd hfind hw
      [] ["x/y"] "--repo" (by decide) (by simp)
    simpa using h

/-- C2: handle_request applies the stages Help, Extension dispatch,
    Validator, Executor in exactly that order, the first applicable stage
    producing the Response and short-circuiting the rest; the extension
    table is matched on (args[0], args[1]) strictly before generic
    validation, and a matched handler is invoked with args[2..], its
    Response returned without any flag-allowlist check. -/
theorem C2_stage_order (w : World) (args : List String) :
    (∀ h, maybe_help args = some h → handle_request w args = ⟨0, h, ""⟩) ∧
    (maybe_help args = none →
      ∀ (a0 a1 : String) (rest : List String) (ext : ExtCommandDef),
        args = a0 :: a1 :: rest → find_ext_command a0 a1 = some ext →
        handle_request w args = ext.handler w rest) ∧
    (maybe_help args = none → maybe_ext_command w args = none →
      ∀ r, reject_reason args = some r →
        handle_request w args = ⟨1, "", "gh-proxy: " ++ r⟩) ∧
    (maybe_help args = none → maybe_ext_command w args = none →
      reject_reason args = none →
      handle_request w args =
        match w.gh_output args with
        | .ok (code, out, err) => ⟨code.getD 1, out, err⟩
        | .error e => ⟨1, "", "gh-proxy: failed to execute gh: " ++ e⟩) := by
  refine ⟨?_, ?_, ?_, ?_⟩
  · intro h hh
    simp [handle_request, hh]
  · intro hnone a0 a1 rest ext heq hfind
    subst heq
    simp [handle_request, hnone, maybe_ext_command, hfind]
  · intro hnone hext r hr
    simp [handle_request, hnone, hext, hr]
  · intro hnone hext hrr
    simp [handle_request, hnone, hext, hrr]

/-- Witness for C2: an ext request reaches the handler untouched by the
    validator, even though the validator would deny it. -/
theorem C2_stage_order_witness :
    handle_request wOK ["ext", "run-logs", "abc"] = handle_run_logs wOK ["abc"] ∧
    (reject_reason ["ext", "run-logs", "abc"]).isSome = true := by
  constructor
  · have heval : find_ext_command "ext" "run-logs" = some run_logs_ext := rfl
    exact (C2_stage_order wOK ["ext", "run-logs", "abc"]).2.1 rfl
      "ext" "run-logs" ["abc"] run_logs_ext rfl heval
  · decide

/-- C3: a request with fewer than two arguments is denied with the message
    naming the joined argument vector, and a request whose (group,
    subcommand) pair is not in the registry is denied with the message
    naming the pair (both rendered after the proxied tool name gh). -/
theorem C3_command_not_allowed (args : List String) :
    (args.length < 2 →
      reject_reason args = some ("command not allowed: gh " ++ join_sep " " args)) ∧
    (∀ g sc rest, args = g :: sc :: rest → find_command g sc = none →
      reject_reason args = some ("command not allowed: gh " ++ g ++ " " ++ sc)) := by
  constructor
  · intro hlen
    rcases args with _ | ⟨a, _ | ⟨b, t⟩⟩
    · rfl
    · rfl
    · simp only [List.length_cons] at hlen
      omega
  · rintro g sc rest rfl hfind
    simp [reject_reason, hfind]

/-- Witness for C3: one short vector and one unknown pair. -/
theorem C3_command_not_allowed_witness :
    reject_reason ["pr"] = some "command not allowed: gh pr" ∧
    reject_reason ["api", "repos"] = some "command not allowed: gh api repos" := by
  constructor
  · exact (C3_command_not_allowed ["pr"]).1 (by decide)
  · exact (C3_command_not_allowed ["api", "repos"]).2 "api" "repos" [] rfl (by decide)

/-- C4: for a vector accepted by the registry lookup, tokens after the
    first literal -- separator never affect the verdict, and any denial is
    caused by a pre-separator token beginning with a dash whose extracted
    name is missing from the allowlist — a positional never causes denial
    by itself. -/
theorem C4_separator_and_positionals (g sc : String) (cmd : CommandDef)
    (hfind : find_command g sc = some cmd) :
    (∀ pre post : List String,
       reject_reason (g :: sc :: (pre ++ "--" :: post)) =
         reject_reason (g :: sc :: (pre ++ ["--"]))) ∧
    (∀ (rest : List String) (r : String), reject_reason (g :: sc :: rest) = some r →
       ∃ p tok q, rest = p ++ tok :: q ∧ "--" ∉ p ∧ strStartsWith tok "-" = true ∧
         cmd.allowed_flags.contains (extract_flag tok) = false) := by
  constructor
  · intro pre post
    rw [reject_reason_cons g sc _ cmd hfind, reject_reason_cons g sc _ cmd hfind,
      check_flags_go_sep]
  · intro rest r hr
    rw [reject_reason_cons g sc rest cmd hfind] at hr
    cases hcf : check_flags_go cmd.allowed_flags false rest with
    | none => rw [hcf] at hr; simp at hr
    | some f =>
      obtain ⟨p, tok, q, hl, hp, hdash, hex, hcon⟩ := check_flags_go_some _ rest f hcf
      exact ⟨p, tok, q, hl, hp, hdash, by rw [hex]; exact hcon⟩

/-- Witness for C4: everything after -- is ignored. -/
theorem C4_separator_and_positionals_witness :
    reject_reason ["pr", "list", "--", "--evil"] = reject_reason ["pr", "list", "--"] := by
  cases hfind : find_command "pr" "list" with
  | none => exact absurd hfind (by decide)
  | some cmd =>
    have h := (C4_separator_and_positionals "pr" "list" cmd hfind).1 [] ["--evil"]
    simpa using h

/-- Counterexample for C5: the claim says every flag candidate (any token
    beginning with a dash) is truncated at its first equals sign before the
    allowlist check, but the code truncates only tokens beginning with a
    double dash: -s=open is checked verbatim and denied with the full token
    in the message, although its truncation -s is in the pr list allowlist
    (so the claim would have validation accept it, or at least name -s). -/
theorem C5_counterexample :
    reject_reason ["pr", "list", "-s=open"] =
      some "flag not allowed for gh pr list: -s=open" ∧
    (find_command "pr" "list").map (fun c => c.allowed_flags.contains "-s") =
      some true := by
  decide

/-- C5 (amended): truncation at the first equals sign applies to tokens
    beginning with a double dash; for such a flag, --flag=value and
    --flag value validate identically by flag name alone, the value never
    inspected, and when the name is missing from the allowlist the denial
    message names exactly that flag.  Single-dash tokens are checked
    verbatim. -/
theorem C5_long_flag_equals (g sc : String) (cmd : CommandDef)
    (hfind : find_command g sc = some cmd)
    (fl v : String) (hdd : strStartsWith fl "--" = true) (hne : fl ≠ "--")
    (hnoeq : fl.data.all (fun c => c != '=') = true)
    (hv : strStartsWith v "-" = false) :
    extract_flag (fl ++ "=" ++ v) = fl ∧
    reject_reason [g, sc, fl ++ "=" ++ v] = reject_reason [g, sc, fl, v] ∧
    (cmd.allowed_flags.contains fl = false →
      reject_reason [g, sc, fl ++ "=" ++ v] =
        some ("flag not allowed for gh " ++ g ++ " " ++ sc ++ ": " ++ fl)) := by
  obtain ⟨tl, htl⟩ := (strStartsWith_ddash_iff fl).mp hdd
  have heqd : ("=" : String).data = ['='] := rfl
  have hdata : (fl ++ "=" ++ v).data = fl.data ++ '=' :: v.data := by
    rw [sdata_append, sdata_append, heqd]
    simp [List.append_assoc]
  have hdd2 : strStartsWith (fl ++ "=" ++ v) "--" = true := by
    rw [strStartsWith_ddash_iff]
    exact ⟨tl ++ '=' :: v.data, by rw [hdata, htl]; simp⟩
  have hex : extract_flag (fl ++ "=" ++ v) = fl := by
    unfold extract_flag
    rw [if_pos hdd2, hdata, takeWhile_append_stop hnoeq, mk_data]
  have hexfl : extract_flag fl = fl := by
    unfold extract_flag
    rw [if_pos hdd, htl]
    rw [← htl, takeWhile_all_eq hnoeq, mk_data]
  have hdash_fl : strStartsWith fl "-" = true := by
    rw [strStartsWith_dash_iff]
    exact ⟨'-' :: tl, htl⟩
  have hdash_tok : strStartsWith (fl ++ "=" ++ v) "-" = true := by
    rw [strStartsWith_dash_iff]
    refine ⟨'-' :: (tl ++ '=' :: v.data), ?_⟩
    rw [hdata, htl]
    rfl
  have hne2 : (fl ++ "=" ++ v) ≠ "--" := by
    intro hcontra
    have h2 := congrArg String.data hcontra
    rw [hdata, htl] at h2
    simp at h2
  have hv_ne : ¬(v = "--") := by
    intro h
    subst h
    have : strStartsWith "--" "-" = true := by decide
    rw [this] at hv
    exact absurd hv (by decide)
  have scan1 : check_flags_go cmd.allowed_flags false [fl ++ "=" ++ v] =
      (if fl ∈ cmd.allowed_flags then none else some fl) := by
    by_cases hc : fl ∈ cmd.allowed_flags
    · simp [check_flags_go, hne2, hdash_tok, hex, hc]
    · simp [check_flags_go, hne2, hdash_tok, hex, hc]
  have scan2 : check_flags_go cmd.allowed_flags false [fl, v] =
      (if fl ∈ cmd.allowed_flags then none else some fl) := by
    by_cases hc : fl ∈ cmd.allowed_flags
    · simp [check_flags_go, hne, hdash_fl, hexfl, hc, hv_ne, hv]
    · simp [check_flags_go, hne, hdash_fl, hexfl, hc]
  refine ⟨hex, ?_, ?_⟩
  · rw [show ([g, sc, fl ++ "=" ++ v] : List String) = g :: sc :: [fl ++ "=" ++ v] from rfl,
      show ([g, sc, fl, v] : List String) = g :: sc :: [fl, v] from rfl,
      reject_reason_cons g sc _ cmd hfind, reject_reason_cons g sc _ cmd hfind,
      scan1, scan2]
  · intro hcontains
    have hc : fl ∉ cmd.allowed_flags := by simpa using hcontains
    rw [show ([g, sc, fl ++ "=" ++ v] : List String) = g :: sc :: [fl ++ "=" ++ v] from rfl,
      reject_reason_cons g sc _ cmd hfind, scan1, if_neg hc]

/-- Witness for the amended C5: --repo=o/r on a write command is denied
    naming --repo. -/
theorem C5_long_flag_equals_witness :
    reject_reason ["pr", "create", "--repo=o/r"] =
      some "flag not allowed for gh pr create: --repo" := by
  cases hfind : find_command "pr" "create" with
  | none => exact absurd hfind (by decide)
  | some cmd =>
    have hcon : cmd.allowed_flags.contains "--repo" = false := by
      have h2 : (find_command "pr" "create").map
          (fun c => c.allowed_flags.contains "--repo") = some false := by decide
      rw [hfind] at h2
      simpa using h2
    exact ((C5_long_flag_equals "pr" "create" cmd hfind "--repo" "o/r"
      (by decide) (by decide) (by decide) (by decide)).2.2) hcon

/-- Counterexample for C8: the claim says the handler requires exactly one
    residual argument, but with two residual arguments the code proceeds
    with the first one and succeeds instead of rejecting. -/
theorem C8_counterexample :
    handle_run_logs wOK ["123", "extra"] = ⟨0, "LOGS", ""⟩ := by
  rfl

/-- C8 (amended): the run-logs handler requires at least one residual
    argument (extras are ignored): with zero residual arguments it returns
    exit code 1 with a usage message; with a first residual not composed
    solely of ASCII digits it returns exit code 1 naming the invalid run
    id, independently of the world (no git or gh subprocess consulted); a
    purely numeric identifier proceeds to repository resolution. -/
theorem C8_run_logs (w : World) (args : List String) :
    (args = [] → handle_run_logs w args =
      ⟨1, "", "gh-proxy: usage: gh ext run-logs <run-id>"⟩) ∧
    (∀ run_id rest, args = run_id :: rest →
      run_id.data.all (fun c => c.isDigit) = false →
      ∀ w' : World, handle_run_logs w' args =
        ⟨1, "", "gh-proxy: invalid run id: " ++ run_id⟩) ∧
    (∀ run_id rest, args = run_id :: rest →
      run_id.data.all (fun c => c.isDigit) = true →
      handle_run_logs w args =
        match detect_repo w with
        | none => ⟨1, "", "gh-proxy: could not detect repository from git remote"⟩
        | some repo =>
          match w.gh_output
              ["api", "/repos/" ++ repo ++ "/actions/runs/" ++ run_id ++ "/logs"] with
          | .ok (code, out, err) => ⟨code.getD 1, out, err⟩
          | .error e => ⟨1, "", "gh-proxy: failed to execute gh api: " ++ e⟩) := by
  refine ⟨?_, ?_, ?_⟩
  · rintro rfl
    rfl
  · rintro run_id rest rfl hnum w'
    simp [handle_run_logs, hnum]
  · rintro run_id rest rfl hnum
    simp [handle_run_logs, hnum]

/-- Witness for the amended C8: a traversal-shaped id is rejected in any
    world. -/
theorem C8_run_logs_witness :
    handle_run_logs wFail ["ab/c"] = ⟨1, "", "gh-proxy: invalid run id: ab/c"⟩ := by
  exact (C8_run_logs wOK ["ab/c"]).2.1 "ab/c" [] rfl (by decide) wFail

/-- C9: for an allowed request reaching the executor, a spawned tool run
    with an exit code yields a Response carrying exactly that exit code and
    the captured streams, while a spawn failure yields exit code 1 and a
    stderr message prefixed gh-proxy: describing the failure. -/
theorem C9_executor (w : World) (args : List String)
    (h1 : maybe_help args = none) (h2 : maybe_ext_command w args = none)
    (h3 : reject_reason args = none) :
    (∀ (c : Int) (out err : String), w.gh_output args = .ok (some c, out, err) →
      handle_request w args = ⟨c, out, err⟩) ∧
    (∀ e, w.gh_output args = .error e →
      handle_request w args = ⟨1, "", "gh-proxy: failed to execute gh: " ++ e⟩) := by
  constructor
  · intro c out err hgh
    simp [handle_request, h1, h2, h3, hgh]
  · intro e hgh
    simp [handle_request, h1, h2, h3, hgh]

/-- Witness for C9: gh exits 3 and the proxy reports 3. -/
theorem C9_executor_witness :
    handle_request wExit3 ["pr", "list"] = ⟨3, "out", "err"⟩ := by
  exact (C9_executor wExit3 ["pr", "list"] rfl rfl (by decide)).1 3 "out" "err" rfl

/- ── helper lemmas: the screenshot scan ──────────────────────────────── -/

lemma qualifies_false_cases {now : Nat} {e : DirEntry} (h : qualifies now e = false) :
    e.isFile = false ∨ e.mtime = none ∨
      ∃ t, e.mtime = some t ∧ MAX_AGE_SECS < age_secs now t := by
  unfold qualifies at h
  cases hf : e.isFile with
  | false => exact Or.inl rfl
  | true =>
    rw [hf] at h
    cases hm : e.mtime with
    | none => exact Or.inr (Or.inl rfl)
    | some t =>
      rw [hm] at h
      simp at h
      exact Or.inr (Or.inr ⟨t, rfl, h⟩)

lemma qualifies_some {now t : Nat} {e : DirEntry} (hf : e.isFile = true)
    (hm : e.mtime = some t) (ha : ¬ MAX_AGE_SECS < age_secs now t) :
    qualifies now e = true := by
  simp [qualifies, hf, hm, ha]

lemma qualifies_true_cases {now : Nat} {e : DirEntry} (h : qualifies now e = true) :
    e.isFile = true ∧ ∃ t, e.mtime = some t ∧ age_secs now t ≤ MAX_AGE_SECS := by
  unfold qualifies at h
  cases hf : e.isFile with
  | false => rw [hf] at h; exact absurd h (by simp)
  | true =>
    rw [hf] at h
    cases hm : e.mtime with
    | none => rw [hm] at h; exact absurd h (by simp)
    | some t =>
      rw [hm] at h
      simp at h
      exact ⟨rfl, t, rfl, h⟩

lemma scan_go_skip (now : Nat) (e : DirEntry)
    (hskip : e.isFile = false ∨ e.mtime = none ∨
      ∃ t, e.mtime = some t ∧ MAX_AGE_SECS < age_secs now t) :
    ∀ (l1 : List DirEntry) (best : Option (Nat × DirEntry)) (l2 : List DirEntry),
      scan_go now best (l1 ++ e :: l2) = scan_go now best (l1 ++ l2) := by
  intro l1
  induction l1 with
  | nil =>
    intro best l2
    rcases hskip with hf | hm | ⟨t, hm, ha⟩
    · simp [scan_go, hf]
    · by_cases hf : e.isFile = false
      · simp [scan_go, hf]
      · simp [scan_go, hf, hm]
    · by_cases hf : e.isFile = false
      · simp [scan_go, hf]
      · simp [scan_go, hf, hm, ha]
  | cons a t ih =>
    intro best l2
    simp only [List.cons_append]
    by_cases hf : a.isFile = false
    · simp only [show ∀ L, scan_go now best (a :: L) = scan_go now best L from
        fun L => by simp [scan_go, hf]]
      exact ih best l2
    · cases hm : a.mtime with
      | none =>
        simp only [show ∀ L, scan_go now best (a :: L) = scan_go now best L from
          fun L => by simp [scan_go, hf, hm]]
        exact ih best l2
      | some ta =>
        by_cases ha : MAX_AGE_SECS < age_secs now ta
        · simp only [show ∀ L, scan_go now best (a :: L) = scan_go now best L from
            fun L => by simp [scan_go, hf, hm, ha]]
          exact ih best l2
        · by_cases hb : better_than ta best = true
          · simp only [show ∀ L, scan_go now best (a :: L) =
                scan_go now (some (ta, a)) L from
              fun L => by simp [scan_go, hf, hm, ha, hb]]
            exact ih (some (ta, a)) l2
          · simp only [show ∀ L, scan_go now best (a :: L) = scan_go now best L from
              fun L => by simp [scan_go, hf, hm, ha, hb]]
            exact ih best l2

lemma scan_go_no_qual (now : Nat) :
    ∀ (l : List DirEntry) (best : Option (Nat × DirEntry)),
      (∀ e ∈ l, qualifies now e = false) → scan_go now best l = best := by
  intro l
  induction l with
  | nil => intro best _; rfl
  | cons a t ih =>
    intro best hall
    have ha := hall a (by simp)
    have ht : ∀ e ∈ t, qualifies now e = false := fun e he => hall e (by simp [he])
    rcases qualifies_false_cases ha with hf | hm | ⟨ta, hm, hage⟩
    · rw [show scan_go now best (a :: t) = scan_go now best t from by simp [scan_go, hf]]
      exact ih best ht
    · by_cases hf : a.isFile = false
      · rw [show scan_go now best (a :: t) = scan_go now best t from by simp [scan_go, hf]]
        exact ih best ht
      · rw [show scan_go now best (a :: t) = scan_go now best t from by
          simp [scan_go, hf, hm]]
        exact ih best ht
    · by_cases hf : a.isFile = false
      · rw [show scan_go now best (a :: t) = scan_go now best t from by simp [scan_go, hf]]
        exact ih best ht
      · rw [show scan_go now best (a :: t) = scan_go now best t from by
          simp [scan_go, hf, hm, hage]]
        exact ih best ht

/-- The full functional characterisation of the scanning loop: a returned
    candidate either was the initial accumulator (and nothing in the list
    beats it), or is a qualifying entry of the list with the maximum
    mtime among qualifying entries, strictly beating the accumulator and
    every qualifying entry encountered before it (first-wins on ties). -/
lemma scan_go_spec (now : Nat) :
    ∀ (l : List DirEntry) (best : Option (Nat × DirEntry)) (m : Nat) (e : DirEntry),
      scan_go now best l = some (m, e) →
      (best = some (m, e) ∧ ∀ e' ∈ l, qualifies now e' = true → mtimeVal e' ≤ m) ∨
      (qualifies now e = true ∧ e.mtime = some m ∧
        (∀ b : Nat × DirEntry, best = some b → b.1 < m) ∧
        ∃ pre post, l = pre ++ e :: post ∧
          (∀ e' ∈ pre, qualifies now e' = true → mtimeVal e' < m) ∧
          (∀ e' ∈ post, qualifies now e' = true → mtimeVal e' ≤ m)) := by
  intro l
  induction l with
  | nil =>
    intro best m e h
    left
    exact ⟨h, by simp⟩
  | cons a t ih =>
    intro best m e h
    have skip_step : qualifies now a = false → scan_go now best t = some (m, e) →
        (best = some (m, e) ∧ ∀ e' ∈ a :: t, qualifies now e' = true → mtimeVal e' ≤ m) ∨
        (qualifies now e = true ∧ e.mtime = some m ∧
          (∀ b : Nat × DirEntry, best = some b → b.1 < m) ∧
          ∃ pre post, a :: t = pre ++ e :: post ∧
            (∀ e' ∈ pre, qualifies now e' = true → mtimeVal e' < m) ∧
            (∀ e' ∈ post, qualifies now e' = true → mtimeVal e' ≤ m)) := by
      intro hq h'
      rcases ih best m e h' with ⟨hb, hbound⟩ | ⟨hqe, hme, hbest, pre, post, hl, hpre, hpost⟩
      · left
        refine ⟨hb, ?_⟩
        intro e' he' hq'
        rcases List.mem_cons.mp he' with rfl | he''
        · rw [hq] at hq'; exact absurd hq' (by simp)
        · exact hbound e' he'' hq'
      · right
        refine ⟨hqe, hme, hbest, a :: pre, post, by rw [hl]; rfl, ?_, hpost⟩
        intro e' he' hq'
        rcases List.mem_cons.mp he' with rfl | he''
        · rw [hq] at hq'; exact absurd hq' (by simp)
        · exact hpre e' he'' hq'
    by_cases hf : a.isFile = false
    · exact skip_step (by simp [qualifies, hf]) (by simpa [scan_go, hf] using h)
    · have hfT : a.isFile = true := by revert hf; cases a.isFile <;> simp
      cases hm : a.mtime with
      | none => exact skip_step (by simp [qualifies, hfT, hm]) (by simpa [scan_go, hf, hm] using h)
      | some ta =>
        by_cases hage : MAX_AGE_SECS < age_secs now ta
        · exact skip_step (by simp [qualifies, hfT, hm, hage])
            (by simpa [scan_go, hf, hm, hage] using h)
        · by_cases hb : better_than ta best = true
          · have h' : scan_go now (some (ta, a)) t = some (m, e) := by
              simpa [scan_go, hf, hm, hage, hb] using h
            rcases ih (some (ta, a)) m e h' with ⟨hb2, hbound⟩ |
              ⟨hqe, hme, hbest, pre, post, hl, hpre, hpost⟩
            · simp only [Option.some.injEq, Prod.mk.injEq] at hb2
              obtain ⟨h1, h2⟩ := hb2
              subst h1
              subst h2
              right
              refine ⟨qualifies_some hfT hm hage, hm, ?_, [], t, rfl, by simp, hbound⟩
              intro b hbb
              rw [hbb] at hb
              simpa [better_than] using hb
            · right
              have htm : ta < m := by simpa using hbest (ta, a) rfl
              refine ⟨hqe, hme, ?_, a :: pre, post, by rw [hl]; rfl, ?_, hpost⟩
              · intro b hbb
                rw [hbb] at hb
                have hlt : b.1 < ta := by
                  rcases b with ⟨b1, b2⟩
                  simpa [better_than] using hb
                exact hlt.trans htm
              · intro e' he' hq'
                rcases List.mem_cons.mp he' with rfl | he''
                · simpa [mtimeVal, hm] using htm
                · exact hpre e' he'' hq'
          · obtain ⟨b₀, hb₀, hle⟩ : ∃ b₀, best = some b₀ ∧ ta ≤ b₀.1 := by
              cases best with
              | none => exact absurd (by simp [better_than]) hb
              | some b₀ =>
                refine ⟨b₀, rfl, ?_⟩
                have hnb : ¬ (b₀.1 < ta) := by
                  rcases b₀ with ⟨b1, b2⟩
                  simpa [better_than] using hb
                omega
            have h' : scan_go now best t = some (m, e) := by
              simpa [scan_go, hf, hm, hage, hb] using h
            rcases ih best m e h' with ⟨hb2, hbound⟩ |
              ⟨hqe, hme, hbest, pre, post, hl, hpre, hpost⟩
            · left
              refine ⟨hb2, ?_⟩
              intro e' he' hq'
              rcases List.mem_cons.mp he' with rfl | he''
              · have hbeq : (m, e) = b₀ := by
                  rw [hb2] at hb₀
                  exact Option.some.inj hb₀
                have hm' : ta ≤ m := by
                  rw [← hbeq] at hle
                  exact hle
                simpa [mtimeVal, hm] using hm'
              · exact hbound e' he'' hq'
            · right
              have hmlt : b₀.1 < m := hbest b₀ hb₀
              refine ⟨hqe, hme, hbest, a :: pre, post, by rw [hl]; rfl, ?_, hpost⟩
              intro e' he' hq'
              rcases List.mem_cons.mp he' with rfl | he''
              · have : ta < m := Nat.lt_of_le_of_lt hle hmlt
                simpa [mtimeVal, hm] using this
              · exact hpre e' he'' hq'

/- ── concrete directory entries used by witnesses ────────────────────── -/

def tieA : DirEntry := ⟨"a.png", true, some 100, .ok [1]⟩

def tieB : DirEntry := ⟨"b.png", true, some 100, .ok [2]⟩

def scanOld : DirEntry := ⟨"old.png", true, some 50, .ok [3]⟩

def scanNew : DirEntry := ⟨"new.png", true, some 90, .ok [4]⟩

def staleFile : DirEntry := ⟨"stale.png", true, some 100, .ok [9]⟩

def freshSub : DirEntry := ⟨"sub", false, some 1000, .ok [8]⟩

def futureFile : DirEntry := ⟨"future.png", true, some 200, .ok [7]⟩

/- ── claims about clipboard_proxy.rs ─────────────────────────────────── -/

/-- Counterexample for C6: two qualifying files carry exactly the same
    modification time but different contents; the lookup returns the bytes
    of the file encountered first during the scan, not the one encountered
    last as the claim states (the accumulator is only replaced on a
    strictly greater mtime). -/
theorem C6_counterexample :
    find_newest_screenshot "d" 100 (.ok [tieA, tieB]) = .ok [1] ∧
    tieA.content = .ok [1] ∧ tieB.content = .ok [2] ∧
    tieA.mtime = tieB.mtime ∧ ([1] : List Nat) ≠ [2] := by
  refine ⟨rfl, rfl, rfl, rfl, by decide⟩

/-- C6 (amended): among the regular files within the freshness window the
    scan selects one with the greatest modification time, and when two
    qualifying files have exactly equal modification times the one
    encountered first during the scan is kept; the lookup then returns that
    file's contents. -/
theorem C6_newest_first_wins (now : Nat) (entries : List DirEntry)
    (m : Nat) (e : DirEntry) (h : scan_go now none entries = some (m, e)) :
    qualifies now e = true ∧ e.mtime = some m ∧
    (∀ e' ∈ entries, qualifies now e' = true → mtimeVal e' ≤ m) ∧
    (∃ pre post, entries = pre ++ e :: post ∧
      ∀ e' ∈ pre, qualifies now e' = true → mtimeVal e' < m) ∧
    (∀ dir, find_newest_screenshot dir now (.ok entries) =
      match e.content with
      | .ok bytes => .ok bytes
      | .error err => .error ("failed to read " ++ e.path ++ ": " ++ err)) := by
  rcases scan_go_spec now entries none m e h with ⟨hb, _⟩ |
    ⟨hq, hme, _, pre, post, hl, hpre, hpost⟩
  · exact absurd hb (by simp)
  · refine ⟨hq, hme, ?_, ⟨pre, post, hl, hpre⟩, ?_⟩
    · intro e' he' hq'
      rw [hl] at he'
      rcases List.mem_append.mp he' with hp | hc
      · exact Nat.le_of_lt (hpre e' hp hq')
      · rcases List.mem_cons.mp hc with rfl | hpost'
        · simp [mtimeVal, hme]
        · exact hpost e' hpost' hq'
    · intro dir
      simp [find_newest_screenshot, h]

/-- Witness for the amended C6: of two fresh files the newer is selected
    and returned. -/
theorem C6_newest_first_wins_witness :
    qualifies 100 scanNew = true ∧ scanNew.mtime = some 90 ∧
    (∀ e' ∈ [scanOld, scanNew], qualifies 100 e' = true → mtimeVal e' ≤ 90) ∧
    (∃ pre post, [scanOld, scanNew] = pre ++ scanNew :: post ∧
      ∀ e' ∈ pre, qualifies 100 e' = true → mtimeVal e' < 90) ∧
    (∀ dir, find_newest_screenshot dir 100 (.ok [scanOld, scanNew]) =
      match scanNew.content with
      | .ok bytes => .ok bytes
      | .error err => .error ("failed to read " ++ scanNew.path ++ ": " ++ err)) := by
  exact C6_newest_first_wins 100 [scanOld, scanNew] 90 scanNew rfl

/-- C7: whatever the screenshot lookup returns comes from a regular-file
    entry of the scanned listing whose age is within the window (so a
    subdirectory entry, even freshly modified, is never returned); an entry
    that is not a regular file or has unreadable metadata behaves exactly
    as if absent (not as a failure); and when no entry qualifies, the
    result is the typed not-found error naming the freshness window and
    the directory. -/
theorem C7_lookup_robustness :
    (∀ (dir : String) (now : Nat) (entries : List DirEntry) (bytes : List Nat),
      find_newest_screenshot dir now (.ok entries) = .ok bytes →
      ∃ e ∈ entries, e.isFile = true ∧
        (∃ t, e.mtime = some t ∧ age_secs now t ≤ MAX_AGE_SECS) ∧
        e.content = .ok bytes) ∧
    (∀ (now : Nat) (e : DirEntry), e.isFile = false ∨ e.mtime = none →
      ∀ (l1 : List DirEntry) (best : Option (Nat × DirEntry)) (l2 : List DirEntry),
        scan_go now best (l1 ++ e :: l2) = scan_go now best (l1 ++ l2)) ∧
    (∀ (dir : String) (now : Nat) (entries : List DirEntry),
      (∀ e ∈ entries, qualifies now e = false) →
      find_newest_screenshot dir now (.ok entries) =
        .error ("no screenshot younger than " ++ toString MAX_AGE_SECS ++ "s in " ++ dir)) := by
  refine ⟨?_, ?_, ?_⟩
  · intro dir now entries bytes h
    simp only [find_newest_screenshot] at h
    cases hscan : scan_go now none entries with
    | none => rw [hscan] at h; simp at h
    | some p =>
      rcases p with ⟨m, e⟩
      rw [hscan] at h
      dsimp only at h
      rcases scan_go_spec now entries none m e hscan with ⟨hb, _⟩ |
        ⟨hq, hme, _, pre, post, hl, _, _⟩
      · exact absurd hb (by simp)
      · obtain ⟨hfile, t, hmt, hage⟩ := qualifies_true_cases hq
        refine ⟨e, ?_, hfile, ⟨t, hmt, hage⟩, ?_⟩
        · rw [hl]
          exact List.mem_append.mpr (Or.inr (by simp))
        · cases hc : e.content with
          | ok b =>
            rw [hc] at h
            simp only [Except.ok.injEq] at h
            rw [h]
          | error err =>
            rw [hc] at h
            simp at h
  · intro now e hsk l1 best l2
    refine scan_go_skip now e ?_ l1 best l2
    rcases hsk with h1 | h1
    · exact Or.inl h1
    · exact Or.inr (Or.inl h1)
  · intro dir now entries hall
    simp only [find_newest_screenshot]
    rw [scan_go_no_qual now entries none hall]

/-- Witness for C7: a stale file plus a fresh subdirectory yield the typed
    not-found error. -/
theorem C7_lookup_robustness_witness :
    find_newest_screenshot "Pics" 1000 (.ok [staleFile, freshSub]) =
      .error ("no screenshot younger than " ++ toString MAX_AGE_SECS ++ "s in " ++ "Pics") := by
  exact C7_lookup_robustness.2.2 "Pics" 1000 [staleFile, freshSub] (by decide)

/-- C10: a file whose modification time lies strictly in the future of the
    scan time gets the maximum duration as its age, which exceeds the
    freshness window, so the scan treats it exactly as if it were absent —
    it is never selected regardless of the rest of the directory. -/
theorem C10_future_files_discarded (now t : Nat) (ht : now < t) :
    age_secs now t = DUR_MAX ∧ MAX_AGE_SECS < DUR_MAX ∧
    (∀ (e : DirEntry), e.mtime = some t →
      ∀ (l1 : List DirEntry) (best : Option (Nat × DirEntry)) (l2 : List DirEntry),
        scan_go now best (l1 ++ e :: l2) = scan_go now best (l1 ++ l2)) := by
  have hage : age_secs now t = DUR_MAX := by
    unfold age_secs
    rw [if_neg (by omega)]
  refine ⟨hage, by decide, ?_⟩
  intro e hm l1 best l2
  exact scan_go_skip now e (Or.inr (Or.inr ⟨t, hm, by rw [hage]; decide⟩)) l1 best l2

/-- Witness for C10: a future-dated file alone yields no candidate. -/
theorem C10_future_files_discarded_witness :
    age_secs 100 200 = DUR_MAX ∧ scan_go 100 none [futureFile] = none := by
  have h := C10_future_files_discarded 100 200 (by decide)
  refine ⟨h.1, ?_⟩
  have h2 := h.2.2 futureFile rfl [] none []
  simpa [scan_go] using h2

end ClaudeSandbox
